import Mathlib

/-!
Shallow embedding of the hybrid retrieval and ranking engine of the
backend-medical repository: the classes `RAGOptimizer`
(`app/services/rag_optimizer.py`), `HybridRAGService`
(`app/services/hybrid_rag_service.py`) and the document search of
`RAGService` (`app/services/rag_service.py`), together with proofs of the
specification claims about them.

Modelling conventions:
* Python floats are modelled as rational numbers (`ℚ`); `round(x, n)` is
  modelled by Python's round-half-to-even on rationals.
* Python strings are modelled as Lean `String`s; `str.lower()`,
  `str.strip()`, `str.split()`, `" ".join(...)` and the substring test
  `a in b` are re-implemented below on the character list of the string.
* The process-wide embedding cache (two class-level dicts of
  `RAGOptimizer`) is modelled as an explicit state record, and the clock
  `time.time()` is passed as an argument.
* Database rows that feed the pipelines are modelled as lists of records
  whose fields are the selected columns; the `md5` hash of the cache key
  is modelled by the normalized key itself (the hash is injective for the
  purposes of the cache contract).
-/

/-- Python `str.lower()` on one character: ASCII `A`–`Z` and the Latin-1
uppercase letters `À`–`Þ` (except `×`) are shifted to their lowercase
counterparts, as CPython does for every character occurring in this code
base. -/
def pyLowerChar (c : Char) : Char :=
  if 'A' ≤ c ∧ c ≤ 'Z' then Char.ofNat (c.toNat + 32)
  else if 0xC0 ≤ c.toNat ∧ c.toNat ≤ 0xDE ∧ c.toNat ≠ 0xD7 then Char.ofNat (c.toNat + 32)
  else c

/-- Python `str.lower()`. -/
def pyLower (s : String) : String := String.mk (s.data.map pyLowerChar)

/-- The characters Python `str.split()` and `str.strip()` treat as whitespace. -/
def pyIsSpace (c : Char) : Bool :=
  c = ' ' || c = '\t' || c = '\n' || c = '\r' || c = '\x0b' || c = '\x0c'

/-- Python `str.strip()`: remove leading and trailing whitespace. -/
def pyStrip (s : String) : String :=
  String.mk (((s.data.dropWhile pyIsSpace).reverse.dropWhile pyIsSpace).reverse)

/-- Helper for `pySplit`: scan the character list, accumulating the current
word (in reverse) in `acc`. -/
def splitWords : List Char → List Char → List String
  | [], acc => if acc.isEmpty then [] else [String.mk acc.reverse]
  | c :: cs, acc =>
    if pyIsSpace c then
      if acc.isEmpty then splitWords cs [] else String.mk acc.reverse :: splitWords cs []
    else splitWords cs (c :: acc)

/-- Python `str.split()` with no separator: split on runs of whitespace,
dropping empty pieces. -/
def pySplit (s : String) : List String := splitWords s.data []

/-- Python `" ".join(ts)`. -/
def joinSpace : List String → String
  | [] => ""
  | [t] => t
  | t :: ts => t ++ " " ++ joinSpace ts

/-- Is the character list `n` a prefix of the second list. -/
def listPrefixB : List Char → List Char → Bool
  | [], _ => true
  | _ :: _, [] => false
  | a :: as, b :: bs => a = b && listPrefixB as bs

/-- Does the character list `n` occur as a contiguous segment of the second
list. -/
def listSegB (n : List Char) : List Char → Bool
  | [] => n.isEmpty
  | c :: cs => listPrefixB n (c :: cs) || listSegB n cs

/-- Python `n in h` on strings: `n` occurs as a substring of `h`. -/
def strContains (h n : String) : Bool := listSegB n.data h.data

/-- First-occurrence deduplication with an accumulator of already-seen
elements; helper for `pyDedup`. -/
def dedupSeen {α : Type} [DecidableEq α] : List α → List α → List α
  | [], _ => []
  | x :: xs, seen => if x ∈ seen then dedupSeen xs seen else x :: dedupSeen xs (x :: seen)

/-- Python `list(dict.fromkeys(xs))`: drop every repetition of an element
after its first occurrence, keeping first-seen order. -/
def pyDedup {α : Type} [DecidableEq α] (l : List α) : List α := dedupSeen l []

theorem dedupSeen_congr {α : Type} [DecidableEq α] :
    ∀ (l s₁ s₂ : List α), (∀ a, a ∈ s₁ ↔ a ∈ s₂) → dedupSeen l s₁ = dedupSeen l s₂
  | [], _, _, _ => rfl
  | x :: xs, s₁, s₂, h => by
    simp only [dedupSeen]
    by_cases hx : x ∈ s₁
    · rw [if_pos hx, if_pos ((h x).mp hx)]
      exact dedupSeen_congr xs s₁ s₂ h
    · rw [if_neg hx, if_neg (fun hc => hx ((h x).mpr hc))]
      exact congrArg _ (dedupSeen_congr xs (x :: s₁) (x :: s₂) (by
        intro a
        simp only [List.mem_cons, h a]))

theorem dedupSeen_shift {α : Type} [DecidableEq α] (l : List α) :
    ∀ (a : α) (s : List α),
      dedupSeen l (a :: s) = dedupSeen (l.filter (fun y => decide (y ≠ a))) s := by
  induction l with
  | nil => intro a s; rfl
  | cons y l ih =>
    intro a s
    by_cases hya : y = a
    · subst hya
      have hfilter : (y :: l).filter (fun z => decide (z ≠ y))
          = l.filter (fun z => decide (z ≠ y)) := by
        rw [List.filter_cons, if_neg (by simp)]
      rw [hfilter]
      simp only [dedupSeen]
      rw [if_pos (List.mem_cons_self y s)]
      exact ih y s
    · have hfilter : (y :: l).filter (fun z => decide (z ≠ a))
          = y :: l.filter (fun z => decide (z ≠ a)) := by
        rw [List.filter_cons, if_pos (by simp [hya])]
      rw [hfilter]
      simp only [dedupSeen, List.mem_cons]
      by_cases hys : y ∈ s
      · rw [if_pos (Or.inr hys), if_pos hys]
        exact ih a s
      · rw [if_neg (by simp [hya, hys]), if_neg hys]
        refine congrArg _ ?_
        have hswap : dedupSeen l (y :: a :: s) = dedupSeen l (a :: y :: s) :=
          dedupSeen_congr l _ _ (by intro b; simp only [List.mem_cons]; tauto)
        rw [hswap]
        exact ih a (y :: s)

theorem pyDedup_cons {α : Type} [DecidableEq α] (x : α) (xs : List α) :
    pyDedup (x :: xs) = x :: pyDedup (xs.filter (fun y => decide (y ≠ x))) := by
  simp only [pyDedup, dedupSeen, List.not_mem_nil, if_false]
  exact congrArg _ (dedupSeen_shift xs x [])

theorem mem_dedupSeen {α : Type} [DecidableEq α] (l : List α) :
    ∀ (s : List α) (a : α), a ∈ dedupSeen l s ↔ a ∈ l ∧ a ∉ s := by
  induction l with
  | nil => intro s a; simp [dedupSeen]
  | cons x l ih =>
    intro s a
    simp only [dedupSeen]
    by_cases hx : x ∈ s
    · rw [if_pos hx, ih]
      by_cases hax : a = x
      · subst hax; simp [hx]
      · simp [List.mem_cons, hax]
    · rw [if_neg hx]
      simp only [List.mem_cons, ih]
      by_cases hax : a = x
      · subst hax; simp [hx]
      · simp [List.mem_cons, hax]

theorem mem_pyDedup {α : Type} [DecidableEq α] (l : List α) (a : α) :
    a ∈ pyDedup l ↔ a ∈ l := by
  simp [pyDedup, mem_dedupSeen]

theorem filter_flatMap {α β : Type} (ws : List α) (f : α → List β) (q : β → Bool) :
    (ws.flatMap f).filter q = ws.flatMap (fun w => (f w).filter q) := by
  induction ws with
  | nil => rfl
  | cons w ws ih => simp [List.flatMap_cons, List.filter_append, ih]

theorem pyDedup_filter_append {α : Type} [DecidableEq α] :
    ∀ (X : List α) (p : α → Bool) (Y : List α),
      pyDedup (X.filter p ++ Y)
        = pyDedup (X.filter p) ++ pyDedup (Y.filter (fun y => decide (y ∉ X.filter p)))
  | [], p, Y => by
    have hpred : (fun y => decide (y ∉ ([] : List α))) = fun _ : α => true := by
      funext y; simp
    rw [List.filter_nil, List.nil_append, hpred, List.filter_true]
    rfl
  | x :: X', p, Y => by
    by_cases hpx : p x
    · have hfe : (x :: X').filter p = x :: X'.filter p := by
        rw [List.filter_cons, if_pos hpx]
      rw [hfe, List.cons_append, pyDedup_cons, pyDedup_cons, List.filter_append]
      simp only [List.filter_filter]
      rw [pyDedup_filter_append X' (fun a => decide (a ≠ x) && p a)
        (Y.filter (fun y => decide (y ≠ x)))]
      simp only [List.filter_filter, List.cons_append]
      congr 3
      apply List.filter_congr
      intro a _
      by_cases hax : a = x
      · subst hax; simp
      · by_cases hmem : a ∈ X'.filter p
        · have h1 : a ∈ X'.filter (fun a => decide (a ≠ x) && p a) := by
            rcases List.mem_filter.mp hmem with ⟨hmX, hpa⟩
            exact List.mem_filter.mpr ⟨hmX, by simp [hax, hpa]⟩
          simp [hax, hmem, h1]
          exact List.mem_filter.mp hmem
        · have h1 : a ∉ X'.filter (fun a => decide (a ≠ x) && p a) := by
            intro hc
            rcases List.mem_filter.mp hc with ⟨hmX, hpa⟩
            simp only [Bool.and_eq_true, decide_eq_true_eq] at hpa
            exact hmem (List.mem_filter.mpr ⟨hmX, hpa.2⟩)
          simp [hax, hmem, h1]
          by_cases hX : a ∈ X'
          · right
            cases hp : p a
            · rfl
            · exact absurd (List.mem_filter.mpr ⟨hX, hp⟩) hmem
          · left; exact hX
    · have hfe : (x :: X').filter p = X'.filter p := by
        rw [List.filter_cons, if_neg (by simp [hpx])]
      rw [hfe]
      exact pyDedup_filter_append X' p Y

theorem pyDedup_append {α : Type} [DecidableEq α] (X Y : List α) :
    pyDedup (X ++ Y) = pyDedup X ++ pyDedup (Y.filter (fun y => decide (y ∉ X))) := by
  have h := pyDedup_filter_append X (fun _ => true) Y
  simpa using h

theorem pyDedup_flatMap_absorb {α : Type} [DecidableEq α] (f g : α → List α)
    (H : ∀ w, ∃ e, g w = f w ++ e ∧ ∀ x ∈ e, x ∈ f w) :
    ∀ (ws : List α) (p : α → Bool),
      pyDedup (ws.flatMap (fun w => (g w).filter p))
        = pyDedup (ws.flatMap (fun w => (f w).filter p)) := by
  intro ws
  induction ws with
  | nil => intro p; rfl
  | cons w ws ih =>
    intro p
    obtain ⟨e, hg, he⟩ := H w
    simp only [List.flatMap_cons]
    rw [hg, List.filter_append, List.append_assoc]
    rw [pyDedup_filter_append (f w), pyDedup_filter_append (f w)]
    congr 1
    rw [List.filter_append]
    have hnil : (e.filter p).filter (fun y => decide (y ∉ (f w).filter p)) = [] := by
      apply List.filter_eq_nil_iff.mpr
      intro a ha
      rcases List.mem_filter.mp ha with ⟨hae, hap⟩
      have hmem : a ∈ (f w).filter p := List.mem_filter.mpr ⟨he a hae, hap⟩
      simp [hmem]
    rw [hnil, List.nil_append]
    rw [filter_flatMap, filter_flatMap]
    simp only [List.filter_filter]
    exact ih (fun a => decide (a ∉ (f w).filter p) && p a)

theorem flatMap_filter_ne {α β : Type} [DecidableEq α] (h : α → List β) (y : α)
    (hy : h y = []) :
    ∀ l : List α, (l.filter (fun z => decide (z ≠ y))).flatMap h = l.flatMap h := by
  intro l
  induction l with
  | nil => rfl
  | cons z l ih =>
    rw [List.filter_cons]
    by_cases hzy : z = y
    · rw [if_neg (by simp [hzy])]
      rw [ih, List.flatMap_cons, hzy, hy, List.nil_append]
    · rw [if_pos (by simp [hzy])]
      rw [List.flatMap_cons, List.flatMap_cons, ih]

theorem pyDedup_flatMap_pyDedup_aux {α : Type} [DecidableEq α] :
    ∀ (n : ℕ) (ys : List α) (h : α → List α), ys.length ≤ n →
      pyDedup ((pyDedup ys).flatMap h) = pyDedup (ys.flatMap h) := by
  intro n
  induction n with
  | zero =>
    intro ys h hlen
    have : ys = [] := List.eq_nil_of_length_eq_zero (Nat.le_zero.mp hlen)
    subst this; rfl
  | succ n ih =>
    intro ys h hlen
    cases ys with
    | nil => rfl
    | cons y ys' =>
      rw [pyDedup_cons]
      simp only [List.flatMap_cons]
      rw [pyDedup_append, pyDedup_append]
      congr 1
      rw [filter_flatMap, filter_flatMap]
      have hlen' : (ys'.filter (fun z => decide (z ≠ y))).length ≤ n := by
        calc (ys'.filter (fun z => decide (z ≠ y))).length
            ≤ ys'.length := List.length_filter_le _ _
          _ ≤ n := Nat.le_of_succ_le_succ hlen
      rw [ih (ys'.filter (fun z => decide (z ≠ y)))
        (fun w => (h w).filter (fun z => decide (z ∉ h y))) hlen']
      congr 1
      apply flatMap_filter_ne
      apply List.filter_eq_nil_iff.mpr
      intro a ha
      simp [ha]

theorem pyDedup_flatMap_pyDedup {α : Type} [DecidableEq α] (ys : List α)
    (h : α → List α) :
    pyDedup ((pyDedup ys).flatMap h) = pyDedup (ys.flatMap h) :=
  pyDedup_flatMap_pyDedup_aux ys.length ys h le_rfl

/-- The dictionary of medical synonym groups of `RAGOptimizer.expand_query`
(`app/services/rag_optimizer.py`, lines 56–65), in source order. -/
def medical_synonyms : List (String × List String) :=
  [("dor", ["dor", "dolor", "algia", "desconforto"]),
   ("cabeça", ["cabeça", "crânio", "cefaleia", "cefaléia"]),
   ("enjoo", ["enjoo", "náusea", "nausea", "vômito", "vomito"]),
   ("febre", ["febre", "hipertermia", "pirexia"]),
   ("tosse", ["tosse", "tossir"]),
   ("prescrição", ["prescrição", "receita", "prescrever", "medicação"]),
   ("tratamento", ["tratamento", "terapia", "terapêutica", "conduta"]),
   ("diagnóstico", ["diagnóstico", "diagnostico", "diagnose"])]

/-- Dictionary lookup `medical_synonyms[word_lower]` as an optional value
(`word_lower in medical_synonyms` guards the access in the source). -/
def synLookup (s : String) : Option (List String) :=
  (medical_synonyms.find? (fun pr => decide (pr.1 = s))).map (fun pr => pr.2)

/-- One iteration of the expansion loop of `expand_query`: a word whose
lowercase form is a dictionary key is replaced by its whole synonym group,
any other word is kept as-is. -/
def expand_term (word : String) : List String :=
  (synLookup (pyLower word)).getD [word]

/-- `RAGOptimizer.expand_query` (`app/services/rag_optimizer.py`, lines
49–80): split the query on whitespace, expand each token by its synonym
group, deduplicate keeping first-seen order, and join with single spaces;
the final line returns `expanded_query if expanded_query != query else
query`. -/
def expand_query (query : String) : String :=
  let expanded_terms := (pySplit query).flatMap expand_term
  let expanded_query := joinSpace (pyDedup expanded_terms)
  if expanded_query ≠ query then expanded_query else query

theorem expand_query_eq (q : String) :
    expand_query q = joinSpace (pyDedup ((pySplit q).flatMap expand_term)) := by
  show (if joinSpace (pyDedup ((pySplit q).flatMap expand_term)) ≠ q
      then joinSpace (pyDedup ((pySplit q).flatMap expand_term)) else q) = _
  split_ifs with h
  · rfl
  · exact (not_not.mp h).symm

theorem synLookup_mem (s : String) (g : List String) (h : synLookup s = some g) :
    (s, g) ∈ medical_synonyms := by
  unfold synLookup at h
  cases hf : medical_synonyms.find? (fun pr => decide (pr.1 = s)) with
  | none => rw [hf] at h; exact Option.noConfusion h
  | some pr =>
    rw [hf] at h
    have h : pr.2 = g := Option.some.inj h
    have h1 := List.find?_some hf
    have h2 := List.mem_of_find?_eq_some hf
    simp only [decide_eq_true_eq] at h1
    have : (s, g) = pr := by
      cases pr with
      | mk a b => simp only [Prod.mk.injEq]; exact ⟨h1.symm, h.symm⟩
    rw [this]
    exact h2

theorem expand_term_closure (w : String) :
    ∃ e, (expand_term w).flatMap expand_term = expand_term w ++ e
      ∧ ∀ x ∈ e, x ∈ expand_term w := by
  cases hsl : synLookup (pyLower w) with
  | none =>
    refine ⟨[], ?_, by simp⟩
    simp [expand_term, hsl]
  | some g =>
    have hmem := synLookup_mem _ _ hsl
    have hterm : expand_term w = g := by simp [expand_term, hsl]
    rw [hterm]
    simp only [medical_synonyms, List.mem_cons, List.not_mem_nil, or_false,
      Prod.mk.injEq] at hmem
    rcases hmem with ⟨-, hg⟩ | ⟨-, hg⟩ | ⟨-, hg⟩ | ⟨-, hg⟩ | ⟨-, hg⟩ | ⟨-, hg⟩
      | ⟨-, hg⟩ | ⟨-, hg⟩ <;> subst hg
    · exact ⟨["dolor", "algia", "desconforto"], by decide, by decide⟩
    · exact ⟨["crânio", "cefaleia", "cefaléia"], by decide, by decide⟩
    · exact ⟨["náusea", "nausea", "vômito", "vomito"], by decide, by decide⟩
    · exact ⟨["hipertermia", "pirexia"], by decide, by decide⟩
    · exact ⟨["tossir"], by decide, by decide⟩
    · exact ⟨["receita", "prescrever", "medicação"], by decide, by decide⟩
    · exact ⟨["terapia", "terapêutica", "conduta"], by decide, by decide⟩
    · exact ⟨["diagnostico", "diagnose"], by decide, by decide⟩

theorem expand_term_flatMap_idem (ws : List String) :
    pyDedup ((ws.flatMap expand_term).flatMap expand_term)
      = pyDedup (ws.flatMap expand_term) := by
  rw [List.flatMap_assoc]
  have h := pyDedup_flatMap_absorb expand_term
    (fun w => (expand_term w).flatMap expand_term) expand_term_closure ws
    (fun _ => true)
  simpa [List.filter_true] using h

theorem splitWords_good : ∀ (l acc : List Char), (∀ c ∈ acc, pyIsSpace c = false) →
    ∀ t ∈ splitWords l acc, t.data ≠ [] ∧ ∀ c ∈ t.data, pyIsSpace c = false := by
  intro l
  induction l with
  | nil =>
    intro acc hacc t ht
    simp only [splitWords] at ht
    by_cases hemp : acc.isEmpty
    · rw [if_pos hemp] at ht; exact absurd ht (List.not_mem_nil t)
    · rw [if_neg hemp] at ht
      rcases List.mem_singleton.mp ht with rfl
      constructor
      · simpa [List.isEmpty_iff] using hemp
      · intro c hc
        exact hacc c (List.mem_reverse.mp hc)
  | cons c cs ih =>
    intro acc hacc t ht
    simp only [splitWords] at ht
    by_cases hsp : pyIsSpace c
    · rw [if_pos hsp] at ht
      by_cases hemp : acc.isEmpty
      · rw [if_pos hemp] at ht
        exact ih [] (by simp) t ht
      · rw [if_neg hemp] at ht
        rcases List.mem_cons.mp ht with rfl | ht'
        · constructor
          · simpa [List.isEmpty_iff] using hemp
          · intro d hd
            exact hacc d (List.mem_reverse.mp hd)
        · exact ih [] (by simp) t ht'
    · rw [if_neg hsp] at ht
      refine ih (c :: acc) ?_ t ht
      intro d hd
      rcases List.mem_cons.mp hd with rfl | hd'
      · simpa using hsp
      · exact hacc d hd'

theorem pySplit_good (s : String) :
    ∀ t ∈ pySplit s, t.data ≠ [] ∧ ∀ c ∈ t.data, pyIsSpace c = false :=
  splitWords_good s.data [] (by simp)

theorem splitWords_append_nonspace :
    ∀ (w : List Char), (∀ c ∈ w, pyIsSpace c = false) →
      ∀ (rest acc : List Char),
        splitWords (w ++ rest) acc = splitWords rest (w.reverse ++ acc) := by
  intro w
  induction w with
  | nil => intro _ rest acc; simp
  | cons c w' ih =>
    intro hw rest acc
    have hc : pyIsSpace c = false := hw c (List.mem_cons_self c w')
    have hstep : splitWords ((c :: w') ++ rest) acc = splitWords (w' ++ rest) (c :: acc) := by
      show splitWords (c :: (w' ++ rest)) acc = splitWords (w' ++ rest) (c :: acc)
      simp only [splitWords, hc, Bool.false_eq_true, if_false]
    rw [hstep, ih (fun d hd => hw d (List.mem_cons_of_mem c hd)) rest (c :: acc)]
    congr 1
    simp [List.reverse_cons, List.append_assoc]

theorem pySplit_joinSpace :
    ∀ (ts : List String), (∀ t ∈ ts, t.data ≠ [] ∧ ∀ c ∈ t.data, pyIsSpace c = false) →
      pySplit (joinSpace ts) = ts := by
  intro ts
  induction ts with
  | nil => intro _; rfl
  | cons t ts ih =>
    intro h
    obtain ⟨hne, hns⟩ := h t (List.mem_cons_self t ts)
    cases ts with
    | nil =>
      show pySplit t = [t]
      unfold pySplit
      have h1 := splitWords_append_nonspace t.data hns [] []
      rw [List.append_nil] at h1
      rw [h1]
      simp only [splitWords, List.append_nil]
      rw [if_neg (by simp [List.isEmpty_iff, hne])]
      simp
    | cons t' ts' =>
      show pySplit (t ++ " " ++ joinSpace (t' :: ts')) = t :: t' :: ts'
      unfold pySplit
      have hdata : (t ++ " " ++ joinSpace (t' :: ts')).data
          = t.data ++ ' ' :: (joinSpace (t' :: ts')).data := by
        simp [String.data_append]
      rw [hdata]
      rw [splitWords_append_nonspace t.data hns _ []]
      have hsp : pyIsSpace ' ' = true := by decide
      simp only [splitWords, hsp, if_true, List.append_nil]
      rw [if_neg (by simp [List.isEmpty_iff, hne])]
      have htail : splitWords (joinSpace (t' :: ts')).data [] = t' :: ts' :=
        ih (fun u hu => h u (List.mem_cons_of_mem t hu))
      rw [htail]
      simp

theorem expand_tokens_good (q : String) :
    ∀ t ∈ pyDedup ((pySplit q).flatMap expand_term),
      t.data ≠ [] ∧ ∀ c ∈ t.data, pyIsSpace c = false := by
  intro t ht
  rw [mem_pyDedup, List.mem_flatMap] at ht
  obtain ⟨w, hw, htw⟩ := ht
  cases hsl : synLookup (pyLower w) with
  | none =>
    rw [expand_term, hsl] at htw
    rcases List.mem_singleton.mp htw with rfl
    exact pySplit_good q t hw
  | some g =>
    rw [expand_term, hsl] at htw
    have hgood : ∀ pr ∈ medical_synonyms, ∀ m ∈ pr.2,
        m.data ≠ [] ∧ ∀ c ∈ m.data, pyIsSpace c = false := by decide
    exact hgood _ (synLookup_mem _ _ hsl) t htw

/-- C7: `RAGOptimizer.expand_query` is idempotent: expanding an
already-expanded query yields the same token sequence (indeed the same
string) as expanding once. -/
theorem expand_query_idempotent (q : String) :
    expand_query (expand_query q) = expand_query q := by
  rw [expand_query_eq q, expand_query_eq]
  rw [pySplit_joinSpace _ (expand_tokens_good q)]
  rw [pyDedup_flatMap_pyDedup, expand_term_flatMap_idem]

theorem flatMap_expand_term_of_none (ws : List String)
    (h : ∀ w ∈ ws, synLookup (pyLower w) = none) :
    ws.flatMap expand_term = ws := by
  induction ws with
  | nil => rfl
  | cons w ws ih =>
    have hw := h w (List.mem_cons_self w ws)
    simp only [List.flatMap_cons, expand_term, hw, Option.getD_none, List.singleton_append]
    rw [ih (fun u hu => h u (List.mem_cons_of_mem w hu))]

/-- C8 (counterexample): on the query `"ok ok"` no token matches any synonym
group, yet `expand_query` returns `"ok"`, not the original query: the
deduplication pass also deduplicates unmatched tokens, and the space-join
re-normalizes whitespace. -/
theorem expand_query_no_match_counterexample :
    (∀ w ∈ pySplit "ok ok", synLookup (pyLower w) = none)
    ∧ expand_query "ok ok" = "ok" ∧ ("ok" : String) ≠ "ok ok" := by decide

/-- C8 (amended): if no token of the query matches any synonym group, and
moreover the query is already in normal form — it equals the space-join of
its deduplicated whitespace tokens (no duplicate tokens, single separating
spaces, no leading/trailing whitespace) — then `expand_query` returns the
original query unchanged. -/
theorem expand_query_no_match (q : String)
    (hnone : ∀ w ∈ pySplit q, synLookup (pyLower w) = none)
    (hjoin : joinSpace (pyDedup (pySplit q)) = q) :
    expand_query q = q := by
  rw [expand_query_eq, flatMap_expand_term_of_none _ hnone, hjoin]

theorem expand_query_no_match_witness :
    (∀ w ∈ pySplit "bom dia", synLookup (pyLower w) = none)
    ∧ expand_query "bom dia" = "bom dia" :=
  ⟨by decide, expand_query_no_match "bom dia" (by decide) (by decide)⟩

/-- State of the class-level embedding cache of `RAGOptimizer`: the two
dicts `_embedding_cache` and `_cache_ttl`, modelled as insertion-ordered
association lists (Python dict semantics). -/
structure CacheState where
  embeddingCache : List (String × List ℚ)
  cacheTTL : List (String × ℚ)

/-- `RAGOptimizer.CACHE_TTL_SECONDS` (one hour). -/
def CACHE_TTL_SECONDS : ℚ := 3600

/-- Python `m[k]` guarded by `k in m`: the value at key `k`, if present. -/
def pyDictGet {β : Type} (m : List (String × β)) (k : String) : Option β :=
  (m.find? (fun pr => decide (pr.1 = k))).map (fun pr => pr.2)

/-- Python `m.get(k, d)`. -/
def pyDictGetD (m : List (String × ℚ)) (k : String) (d : ℚ) : ℚ :=
  (pyDictGet m k).getD d

/-- Python `m[k] = v`: replace the value at an existing key in place, or
append a new binding. -/
def pyDictInsert {β : Type} (m : List (String × β)) (k : String) (v : β) :
    List (String × β) :=
  if (m.find? (fun pr => decide (pr.1 = k))).isSome then
    m.map (fun pr => if pr.1 = k then (k, v) else pr)
  else m ++ [(k, v)]

/-- Python `del m[k]`. -/
def pyDictErase {β : Type} (m : List (String × β)) (k : String) : List (String × β) :=
  m.filter (fun pr => decide (pr.1 ≠ k))

/-- `RAGOptimizer._get_query_hash`: the cache key is `md5` of the
lower-cased, stripped query; the hash itself is modelled by the normalized
string. -/
def query_hash (query : String) : String := pyStrip (pyLower query)

/-- `RAGOptimizer.get_cached_embedding` (lines 29–40): look the normalized
key up; a hit younger than the TTL is returned, an expired hit is deleted
from both dicts and treated as absent. `now` models `time.time()`. -/
def get_cached_embedding (st : CacheState) (query : String) (now : ℚ) :
    Option (List ℚ) × CacheState :=
  let h := query_hash query
  match pyDictGet st.embeddingCache h with
  | some v =>
    if now - pyDictGetD st.cacheTTL h 0 < CACHE_TTL_SECONDS then (some v, st)
    else (none, ⟨pyDictErase st.embeddingCache h, pyDictErase st.cacheTTL h⟩)
  | none => (none, st)

/-- `RAGOptimizer.cache_embedding` (lines 42–47): store the vector under
the normalized key and record the insertion time. -/
def cache_embedding (st : CacheState) (query : String) (embedding : List ℚ)
    (now : ℚ) : CacheState :=
  ⟨pyDictInsert st.embeddingCache (query_hash query) embedding,
   pyDictInsert st.cacheTTL (query_hash query) now⟩

theorem pyDictGet_cons_of_ne {β : Type} (pr : String × β) (m : List (String × β))
    (k : String) (h : pr.1 ≠ k) : pyDictGet (pr :: m) k = pyDictGet m k := by
  unfold pyDictGet
  rw [List.find?_cons_of_neg _ (by simp [h])]

theorem pyDictGet_insert_self {β : Type} (m : List (String × β)) (k : String) (v : β) :
    pyDictGet (pyDictInsert m k v) k = some v := by
  induction m with
  | nil =>
    show pyDictGet [(k, v)] k = some v
    simp [pyDictGet, List.find?]
  | cons pr m ih =>
    by_cases hk : pr.1 = k
    · have hf : (pr :: m).find? (fun q => decide (q.1 = k)) = some pr :=
        List.find?_cons_of_pos _ (by simp [hk])
      simp only [pyDictInsert, hf, Option.isSome_some, if_true, List.map_cons, if_pos hk]
      have hg : ((k, v) :: m.map (fun pr => if pr.1 = k then (k, v) else pr)).find?
          (fun q => decide (q.1 = k)) = some (k, v) :=
        List.find?_cons_of_pos _ (by simp)
      simp [pyDictGet, hg]
    · have hf : (pr :: m).find? (fun q => decide (q.1 = k))
          = m.find? (fun q => decide (q.1 = k)) :=
        List.find?_cons_of_neg _ (by simp [hk])
      simp only [pyDictInsert, hf]
      split_ifs with hs
    
      · simp only [List.map_cons, if_neg hk]
        rw [pyDictGet_cons_of_ne _ _ _ hk]
        have h2 := ih
        simp only [pyDictInsert, if_pos hs] at h2
        exact h2
      · simp only [List.cons_append]
        rw [pyDictGet_cons_of_ne _ _ _ hk]
        have h2 := ih
        simp only [pyDictInsert, if_neg hs] at h2
        exact h2

theorem pyDictGet_erase_self {β : Type} (m : List (String × β)) (k : String) :
    pyDictGet (pyDictErase m k) k = none := by
  unfold pyDictGet pyDictErase
  have h : (m.filter (fun pr => decide (pr.1 ≠ k))).find? (fun pr => decide (pr.1 = k))
      = none := by
    rw [List.find?_eq_none]
    intro x hx
    rcases List.mem_filter.mp hx with ⟨-, hpx⟩
    simp only [decide_eq_true_eq] at hpx ⊢
    exact hpx
  rw [h]
  rfl

/-- C5: round trip law of the embedding cache. A `get` after a `put` whose
key normalizes to the same value returns the stored vector exactly while
less than `CACHE_TTL_SECONDS` (3600 s) has elapsed; once the TTL has
elapsed the entry is treated as absent and purged from both dicts. -/
theorem cache_roundtrip (st : CacheState) (q q' : String) (v : List ℚ) (t now : ℚ)
    (hk : query_hash q' = query_hash q) :
    (now - t < CACHE_TTL_SECONDS →
        (get_cached_embedding (cache_embedding st q v t) q' now).1 = some v)
    ∧ (CACHE_TTL_SECONDS ≤ now - t →
        (get_cached_embedding (cache_embedding st q v t) q' now).1 = none
        ∧ pyDictGet (get_cached_embedding (cache_embedding st q v t) q' now).2.embeddingCache
            (query_hash q') = none
        ∧ pyDictGet (get_cached_embedding (cache_embedding st q v t) q' now).2.cacheTTL
            (query_hash q') = none) := by
  have hget : pyDictGet (cache_embedding st q v t).embeddingCache (query_hash q')
      = some v := by
    rw [hk]
    simp only [cache_embedding]
    exact pyDictGet_insert_self _ _ _
  have httl : pyDictGetD (cache_embedding st q v t).cacheTTL (query_hash q') 0 = t := by
    rw [hk]
    unfold pyDictGetD
    simp only [cache_embedding]
    rw [pyDictGet_insert_self]
    rfl
  constructor
  · intro hlt
    simp only [get_cached_embedding, hget, httl]
    rw [if_pos hlt]
  · intro hexp
    simp only [get_cached_embedding, hget, httl]
    rw [if_neg (not_lt.mpr hexp)]
    refine ⟨rfl, ?_, ?_⟩
    · exact pyDictGet_erase_self _ _
    · exact pyDictGet_erase_self _ _

theorem cache_roundtrip_witness :
    (get_cached_embedding (cache_embedding ⟨[], []⟩ "  FOO bar " [1/2, 3] 0) "foo bar" 100).1
        = some [1/2, 3]
    ∧ (get_cached_embedding (cache_embedding ⟨[], []⟩ "  FOO bar " [1/2, 3] 0) "foo bar" 3600).1
        = none :=
  ⟨(cache_roundtrip ⟨[], []⟩ "  FOO bar " "foo bar" [1/2, 3] 0 100 (by decide)).1
      (by norm_num [CACHE_TTL_SECONDS]),
   ((cache_roundtrip ⟨[], []⟩ "  FOO bar " "foo bar" [1/2, 3] 0 3600 (by decide)).2
      (by norm_num [CACHE_TTL_SECONDS])).1⟩

/-- One formatted row of the notes search of
`RAGOptimizer.optimized_semantic_search` (lines 262–275): the dict built
from the SQL row. `createdDaysAgo` models the `created_at` column as the
whole-day age `(datetime.now() - created_at).days` that `rerank_results`
derives from it; `none` models a missing `created_at`. -/
structure NoteResult where
  id : String
  title : String
  content : String
  tags : List String
  is_favorite : Bool
  createdDaysAgo : Option ℤ
  similarity : ℚ
deriving DecidableEq

/-- `RAGOptimizer.calculate_relevance_score` (lines 82–110). -/
def calculate_relevance_score (similarity : ℚ) (is_favorite : Bool)
    (recency_days : ℤ) (has_tags : Bool) : ℚ :=
  let base_score := similarity * (6/10)
  let favorite_bonus : ℚ := if is_favorite then 15/100 else 0
  let recency_bonus : ℚ := max 0 ((15/100) * (1 - ((min recency_days 365 : ℤ) : ℚ) / 365))
  let tags_bonus : ℚ := if has_tags then 1/10 else 0
  min 1 (base_score + favorite_bonus + recency_bonus + tags_bonus)

/-- The `recency_days` computed by `rerank_results` (lines 153–170): the age
in days when `created_at` is present, `365` otherwise. -/
def recency_days_of (r : NoteResult) : ℤ := r.createdDaysAgo.getD 365

/-- The `relevance_score` that `rerank_results` stores into each result dict
(lines 172–180); `has_tags` is `bool(result.get("tags"))`. -/
def relevance_score (r : NoteResult) : ℚ :=
  calculate_relevance_score r.similarity r.is_favorite (recency_days_of r) (!r.tags.isEmpty)

/-- The comparator of `results.sort(key=lambda x: x.get("relevance_score", 0),
reverse=True)`: `a` may precede `b` iff its key is not smaller. -/
def relevance_le (a b : NoteResult) : Bool :=
  decide (relevance_score b ≤ relevance_score a)

/-- `RAGOptimizer.rerank_results` (lines 140–185): compute the relevance
score of each result and sort by it in non-increasing order with Python's
stable `list.sort`, modelled by the stable `List.mergeSort`. -/
def rerank_results (results : List NoteResult) (query : String) : List NoteResult :=
  results.mergeSort relevance_le

theorem relevance_le_trans (a b c : NoteResult) :
    relevance_le a b → relevance_le b c → relevance_le a c := by
  intro hab hbc
  simp only [relevance_le, decide_eq_true_eq] at hab hbc ⊢
  exact le_trans hbc hab

theorem relevance_le_total (a b : NoteResult) : relevance_le a b || relevance_le b a := by
  simp only [relevance_le, Bool.or_eq_true, decide_eq_true_eq]
  exact le_total (relevance_score b) (relevance_score a)

/-- C4: `rerank_results` returns a permutation of its input (no items added
or dropped), sorted by non-increasing `relevance_score` (the capped
`min(1.0, 0.6*similarity + favorite_bonus + recency_bonus + tags_bonus)`),
and the sort is stable: any pair in input order whose relevance scores are
equal remains in that order in the output. -/
theorem rerank_results_spec (l : List NoteResult) (query : String) :
    List.Perm (rerank_results l query) l
    ∧ (rerank_results l query).Pairwise
        (fun a b => relevance_score b ≤ relevance_score a)
    ∧ ∀ a b : NoteResult, [a, b].Sublist l → relevance_score a = relevance_score b →
        [a, b].Sublist (rerank_results l query) := by
  refine ⟨List.mergeSort_perm l relevance_le, ?_, ?_⟩
  · have h := List.sorted_mergeSort relevance_le_trans relevance_le_total l
    exact h.imp (by
      intro a b hab
      simpa [relevance_le] using hab)
  · intro a b hsub heq
    exact List.pair_sublist_mergeSort relevance_le_trans relevance_le_total
      (by simp [relevance_le, heq]) hsub

/-- Sample notes rows used to instantiate the claim theorems. -/
def wNoteA : NoteResult := ⟨"a", "A", "ca", [], false, none, 1/2⟩

def wNoteB : NoteResult := ⟨"b", "B", "cb", [], false, none, 1/2⟩

theorem rerank_results_spec_witness :
    [wNoteA, wNoteB].Sublist (rerank_results [wNoteA, wNoteB] "febre") :=
  (rerank_results_spec [wNoteA, wNoteB] "febre").2.2 wNoteA wNoteB
    (List.Sublist.refl _) rfl

/-- `RAGOptimizer.adaptive_threshold` (lines 112–138). A result dict is
represented by its `"similarity"` entry (`r.get("similarity", 0)` is the
only field the function reads); `if not results` is the emptiness test. -/
def adaptive_threshold (sims : List ℚ) (min_threshold max_threshold : ℚ) : ℚ :=
  if sims.isEmpty then min_threshold
  else
    let avg_similarity := sims.sum / (sims.length : ℚ)
    if avg_similarity > 6/10 then min max_threshold (avg_similarity - 1/10)
    else if avg_similarity < 3/10 then max min_threshold (avg_similarity - 5/100)
    else min_threshold

/-- C6 (counterexample): for the configured thresholds
`min_threshold = 0.6`, `max_threshold = 0.7` and the one-element result set
with similarity `0.65` (average `0.65 > 0.6`), `adaptive_threshold` returns
`0.55`, which is strictly below the configured `min_threshold` — the claim
that the returned value is always `≥ min_threshold` fails. -/
theorem adaptive_threshold_counterexample :
    (6/10 : ℚ) < [(65/100 : ℚ)].sum / (([(65/100 : ℚ)] : List ℚ).length : ℚ)
    ∧ adaptive_threshold [65/100] (6/10) (7/10) = 55/100
    ∧ adaptive_threshold [65/100] (6/10) (7/10) < 6/10 := by
  refine ⟨by norm_num, ?_, ?_⟩ <;>
    norm_num [adaptive_threshold, min_def]

/-- C6 (amended): for every non-empty result set whose average similarity
exceeds 0.6, `adaptive_threshold` returns `min(max_threshold, avg - 0.1)`;
this value is always `≤ max_threshold`, and it is `≥ min_threshold`
provided the configuration satisfies `min_threshold ≤ max_threshold` and
`min_threshold ≤ avg - 0.1` (both hold for the defaults
`min_threshold = 0.2`, `max_threshold = 0.7`, since `avg - 0.1 > 0.5`). -/
theorem adaptive_threshold_strong_avg (sims : List ℚ) (minT maxT : ℚ)
    (hne : sims ≠ []) (havg : 6/10 < sims.sum / (sims.length : ℚ)) :
    adaptive_threshold sims minT maxT = min maxT (sims.sum / (sims.length : ℚ) - 1/10)
    ∧ adaptive_threshold sims minT maxT ≤ maxT
    ∧ (minT ≤ maxT → minT ≤ sims.sum / (sims.length : ℚ) - 1/10 →
        minT ≤ adaptive_threshold sims minT maxT) := by
  have hemp : sims.isEmpty = false := by simpa [List.isEmpty_iff] using hne
  have heq : adaptive_threshold sims minT maxT
      = min maxT (sims.sum / (sims.length : ℚ) - 1/10) := by
    unfold adaptive_threshold
    rw [hemp]
    simp only [Bool.false_eq_true, if_false]
    rw [if_pos havg]
  refine ⟨heq, ?_, ?_⟩
  · rw [heq]; exact min_le_left _ _
  · intro h1 h2
    rw [heq]
    exact le_min h1 h2

theorem adaptive_threshold_strong_avg_witness :
    adaptive_threshold [7/10, 8/10] (2/10) (7/10) ≤ 7/10
    ∧ 2/10 ≤ adaptive_threshold [7/10, 8/10] (2/10) (7/10) := by
  have h := adaptive_threshold_strong_avg [7/10, 8/10] (2/10) (7/10) (by simp)
    (by norm_num [List.sum_cons, List.sum_nil])
  exact ⟨h.2.1, h.2.2 (by norm_num) (by norm_num [List.sum_cons, List.sum_nil])⟩

/-- The in-Python tail of `RAGOptimizer.optimized_semantic_search`
(lines 261–287), taking as input the formatted rows fetched from the
database (steps 4–5 of the source; the SQL already applied the base
similarity threshold and the `limit * 2` candidate bound):
step 6 applies `adaptive_threshold` over the fetched set and keeps rows
with `similarity >= adaptive_threshold` (only when the set is non-empty),
step 7 reranks when requested, step 8 truncates to `limit`. -/
def optimized_semantic_search_post (rows : List NoteResult) (query : String)
    (limit : ℕ) (rerank : Bool) : List NoteResult :=
  let results := rows
  let results :=
    if results.isEmpty then results
    else results.filter (fun r =>
      decide (adaptive_threshold (rows.map (fun x => x.similarity)) (2/10) (7/10)
        ≤ r.similarity))
  let results := if rerank then rerank_results results query else results
  results.take limit

/-- One row of the official-documents query of
`HybridRAGService._search_official_documents` (lines 104–132): the SQL
already ordered by `(priority ASC, similarity DESC)` and applied `LIMIT`. -/
structure OfficialRow where
  id : String
  source : String
  title : String
  specialty : String
  priority : ℤ
  content_preview : String
  similarity : ℚ
deriving DecidableEq

/-- The result dict built for an official row (lines 137–148). -/
structure OfficialResult where
  type : String
  source : String
  id : String
  title : String
  specialty : String
  priority : ℤ
  content : String
  similarity : ℚ
deriving DecidableEq

def official_row_to_result (row : OfficialRow) : OfficialResult :=
  ⟨"official", row.source, row.id, row.title, row.specialty, row.priority,
    row.content_preview, row.similarity⟩

/-- The in-Python tail of `HybridRAGService._search_official_documents`
(lines 134–150): keep a fetched row only if
`row[6] >= similarity_threshold` (the fixed base threshold — no adaptive
threshold is computed for this source). -/
def search_official_documents_post (rows : List OfficialRow)
    (similarity_threshold : ℚ) : List OfficialResult :=
  rows.filterMap (fun row =>
    if similarity_threshold ≤ row.similarity then some (official_row_to_result row)
    else none)

/-- Sample official rows: two strong hits and one weak hit, all above the
base threshold 0.2. -/
def wOffRows : List OfficialRow :=
  [⟨"1", "pcdt", "t1", "cardiologia", 1, "c1", 9/10⟩,
   ⟨"2", "sbc", "t2", "cardiologia", 2, "c2", 9/10⟩,
   ⟨"3", "sbc", "t3", "oncologia", 3, "c3", 3/10⟩]

/-- C3 (counterexample): the reference-corpus source keeps a result whose
similarity (0.3) is strictly below the adaptive threshold (0.6) computed
from that source's own result-set distribution (similarities
0.9, 0.9, 0.3, average 0.7): `_search_official_documents` filters only by
the fixed base threshold 0.2, so the claim that every source's
contribution is adaptively filtered fails. -/
theorem adaptive_threshold_not_applied_official :
    (∃ r ∈ search_official_documents_post wOffRows (2/10), r.similarity = 3/10)
    ∧ 3/10 < adaptive_threshold
        ((search_official_documents_post wOffRows (2/10)).map (fun r => r.similarity))
        (2/10) (7/10) := by
  have hout : search_official_documents_post wOffRows (2/10)
      = [official_row_to_result ⟨"1", "pcdt", "t1", "cardiologia", 1, "c1", 9/10⟩,
         official_row_to_result ⟨"2", "sbc", "t2", "cardiologia", 2, "c2", 9/10⟩,
         official_row_to_result ⟨"3", "sbc", "t3", "oncologia", 3, "c3", 3/10⟩] := by
    simp only [search_official_documents_post, wOffRows, List.filterMap_cons]
    norm_num
  constructor
  · refine ⟨official_row_to_result ⟨"3", "sbc", "t3", "oncologia", 3, "c3", 3/10⟩, ?_, rfl⟩
    rw [hout]
    simp [official_row_to_result]
  · rw [hout]
    norm_num [adaptive_threshold, official_row_to_result, min_def]

theorem mem_rerank_ite (rr : Bool) (X : List NoteResult) (q : String) (r : NoteResult) :
    r ∈ (if rr then rerank_results X q else X) ↔ r ∈ X := by
  cases rr
  · simp
  · simp [rerank_results, List.mem_mergeSort]

/-- C3 (amended): the adaptive threshold policy is applied to the
personal-notes source only: every result emitted by
`optimized_semantic_search` has similarity at least the adaptive threshold
computed from the fetched notes result set; the user-documents and
reference-corpus sources are filtered only by the fixed base similarity
threshold (for the reference corpus, the output is exactly the fetched
rows with `similarity >= threshold`, mapped to result dicts). -/
theorem adaptive_threshold_notes_only :
    (∀ (rows : List NoteResult) (q : String) (limit : ℕ) (rr : Bool)
        (r : NoteResult), r ∈ optimized_semantic_search_post rows q limit rr →
        adaptive_threshold (rows.map (fun x => x.similarity)) (2/10) (7/10)
          ≤ r.similarity)
    ∧ (∀ (rows : List OfficialRow) (thr : ℚ),
        search_official_documents_post rows thr
          = (rows.filter (fun x => decide (thr ≤ x.similarity))).map
              official_row_to_result) := by
  constructor
  · intro rows q limit rr r hr
    unfold optimized_semantic_search_post at hr
    have hr' := List.mem_of_mem_take hr
    rw [mem_rerank_ite] at hr'
    by_cases hemp : rows.isEmpty
    · rcases List.isEmpty_iff.mp hemp with rfl
      simp only [List.isEmpty_nil, if_true] at hr'
      exact absurd hr' (List.not_mem_nil r)
    · simp only [hemp, Bool.false_eq_true, if_false] at hr'
      rcases List.mem_filter.mp hr' with ⟨-, hle⟩
      exact of_decide_eq_true hle
  · intro rows thr
    induction rows with
    | nil => rfl
    | cons row rows ih =>
      have ih' := ih
      simp only [search_official_documents_post] at ih' ⊢
      simp only [List.filterMap_cons, List.filter_cons]
      by_cases hthr : thr ≤ row.similarity
      · rw [if_pos hthr, if_pos (by simpa using hthr), List.map_cons, ih']
      · rw [if_neg hthr, if_neg (by simpa using hthr), ih']

theorem adaptive_threshold_notes_only_witness :
    adaptive_threshold ([wNoteA, wNoteB].map (fun x => x.similarity)) (2/10) (7/10)
      ≤ wNoteA.similarity :=
  adaptive_threshold_notes_only.1 [wNoteA, wNoteB] "febre" 5 false wNoteA
    (by
      have : optimized_semantic_search_post [wNoteA, wNoteB] "febre" 5 false
          = [wNoteA, wNoteB] := by
        norm_num [optimized_semantic_search_post, adaptive_threshold, wNoteA, wNoteB,
          List.filter_cons, min_def, max_def]
      rw [this]
      exact List.mem_cons_self _ _)

/-- One result dict of `RAGService.search_documents`
(`app/services/rag_service.py`, lines 153–164). -/
structure DocResult where
  id : String
  title : String
  content : String
  type : String
  created_at : String
  similarity : ℚ
deriving DecidableEq

/-- `HybridRAGService.hybrid_search` (lines 19–81): the three source
searches are awaited in sequence with no exception handling around any of
them. Each argument is the outcome of one source's search
(`Except.error` models an exception raised by that search); the result is
the dict of the three result lists. -/
def hybrid_search (user_notes : Except String (List NoteResult))
    (user_docs : Except String (List DocResult))
    (official_docs : Except String (List OfficialResult)) :
    Except String (List NoteResult × List DocResult × List OfficialResult) := do
  let n ← user_notes
  let d ← user_docs
  let o ← official_docs
  return (n, d, o)

/-- Sample row of `search_documents`. -/
def wDoc : DocResult := ⟨"d1", "doc.pdf", "conteudo", "document", "2024-01-01", 1/2⟩

/-- Sample official result. -/
def wOffRes : OfficialResult :=
  official_row_to_result ⟨"1", "pcdt", "t1", "cardiologia", 1, "c1", 9/10⟩

/-- C2 (counterexample): when the notes search raises and both other
sources succeed with non-empty results, `hybrid_search` propagates the
exception — it does not treat the failing source as empty and merge the
other two, and it surfaces a hard error although not every source
failed. -/
theorem hybrid_search_failure_propagates :
    hybrid_search (Except.error "notes search failed") (Except.ok [wDoc])
        (Except.ok [wOffRes])
      = Except.error "notes search failed"
    ∧ hybrid_search (Except.error "notes search failed") (Except.ok [wDoc])
        (Except.ok [wOffRes])
      ≠ Except.ok ([], [wDoc], [wOffRes]) :=
  ⟨rfl, fun h => Except.noConfusion h⟩

/-- C2 (amended): failures are not isolated per source: `hybrid_search`
propagates the first failing source's exception to its caller even when
the other sources succeed, and the merged output is produced only when all
three sources succeed. -/
theorem hybrid_search_error_propagation :
    (∀ (e : String) (d : Except String (List DocResult))
        (o : Except String (List OfficialResult)),
        hybrid_search (Except.error e) d o = Except.error e)
    ∧ (∀ (n : List NoteResult) (e : String)
        (o : Except String (List OfficialResult)),
        hybrid_search (Except.ok n) (Except.error e) o = Except.error e)
    ∧ (∀ (n : List NoteResult) (d : List DocResult) (e : String),
        hybrid_search (Except.ok n) (Except.ok d) (Except.error e) = Except.error e)
    ∧ (∀ (n : List NoteResult) (d : List DocResult) (o : List OfficialResult),
        hybrid_search (Except.ok n) (Except.ok d) (Except.ok o)
          = Except.ok (n, d, o)) :=
  ⟨fun _ _ _ => rfl, fun _ _ _ => rfl, fun _ _ _ => rfl, fun _ _ _ => rfl⟩

/-- One element of the `all_context` list of `ask_with_hybrid_rag`: the
result dicts of the three sources have different shapes, so the merged
list is a tagged union; the constructor records which source a result came
from. -/
inductive CtxRow where
  | note (n : NoteResult)
  | doc (d : DocResult)
  | official (o : OfficialResult)
deriving DecidableEq

/-- The dict returned by `RAGOptimizer.validate_response_quality`
(lines 323–329). -/
structure QualityReport where
  quality_score : ℚ
  term_overlap : ℚ
  uses_context : Bool
  completeness : ℚ
  is_high_quality : Bool
deriving DecidableEq

/-- Python `round` to an integer: round half to even. -/
def pyRoundHalfEven (q : ℚ) : ℤ :=
  let f := ⌊q⌋
  let r := q - f
  if r < 1/2 then f
  else if 1/2 < r then f + 1
  else if f % 2 = 0 then f else f + 1

/-- Python `round(q, 2)`. -/
def pyRound2 (q : ℚ) : ℚ := (pyRoundHalfEven (q * 100) : ℚ) / 100

/-- `RAGOptimizer.validate_response_quality` (lines 289–329). Tokens are
Python `set`s, modelled as deduplicated token lists; `term in
response_lower` is the substring test. -/
def validate_response_quality (response query : String)
    (context_used : List CtxRow) : QualityReport :=
  let response_lower := pyLower response
  let query_lower := pyLower query
  let query_terms := pyDedup (pySplit query_lower)
  let response_terms := pyDedup (pySplit response_lower)
  let term_overlap : ℚ :=
    ((query_terms.filter (fun t => decide (t ∈ response_terms))).length : ℚ)
      / ((max query_terms.length 1 : ℕ) : ℚ)
  let uses_context := !context_used.isEmpty
      && (["anotação", "documento", "fonte", "protocolo"].any
            (fun t => strContains response_lower t))
  let min_length : ℕ := 50
  let completeness : ℚ :=
    if min_length ≤ response.length
    then min 1 ((response.length : ℚ) / (min_length : ℚ)) else 0
  let quality_score :=
    term_overlap * (4/10) + (if uses_context then (1:ℚ) else 0) * (4/10)
      + completeness * (2/10)
  ⟨pyRound2 quality_score, pyRound2 term_overlap, uses_context,
    pyRound2 completeness, decide (6/10 ≤ quality_score)⟩

theorem pyRound2_zero : pyRound2 0 = 0 := by
  norm_num [pyRound2, pyRoundHalfEven]

theorem pyRound2_one : pyRound2 1 = 1 := by
  norm_num [pyRound2, pyRoundHalfEven]

/-- C10: the completeness metric of `validate_response_quality` takes only
the values 0 and 1: it is exactly 0 when the response is shorter than 50
characters and exactly 1 when the response has at least 50 characters —
`min(1.0, len/50)` can never be strictly between 0 and 1, because it is
only evaluated when `len >= 50`, where `len/50 >= 1`. -/
theorem completeness_binary (response query : String) (ctx : List CtxRow) :
    ((validate_response_quality response query ctx).completeness = 0
      ∨ (validate_response_quality response query ctx).completeness = 1)
    ∧ (response.length < 50 →
        (validate_response_quality response query ctx).completeness = 0)
    ∧ (50 ≤ response.length →
        (validate_response_quality response query ctx).completeness = 1) := by
  have hfield : (validate_response_quality response query ctx).completeness
      = pyRound2 (if (50:ℕ) ≤ response.length
          then min 1 ((response.length : ℚ) / ((50:ℕ) : ℚ)) else 0) := rfl
  by_cases hlen : (50:ℕ) ≤ response.length
  · have hcast : (50:ℚ) ≤ (response.length : ℚ) := by exact_mod_cast hlen
    have hmin : min (1:ℚ) ((response.length : ℚ) / ((50:ℕ) : ℚ)) = 1 := by
      apply min_eq_left
      rw [le_div_iff₀ (by norm_num : (0:ℚ) < ((50:ℕ) : ℚ))]
      push_cast
      linarith
    have hval : (validate_response_quality response query ctx).completeness = 1 := by
      rw [hfield, if_pos hlen, hmin, pyRound2_one]
    exact ⟨Or.inr hval, fun hcon => absurd hlen (by omega), fun _ => hval⟩
  · have hval : (validate_response_quality response query ctx).completeness = 0 := by
      rw [hfield, if_neg hlen, pyRound2_zero]
    exact ⟨Or.inl hval, fun _ => hval, fun hcon => absurd hcon hlen⟩

theorem completeness_binary_witness :
    (validate_response_quality "curto" "febre" []).completeness = 0
    ∧ (validate_response_quality
        "Uma resposta bem longa com muito mais de cinquenta caracteres no total."
        "febre" []).completeness = 1 :=
  ⟨(completeness_binary "curto" "febre" []).2.1 (by decide),
   (completeness_binary
      "Uma resposta bem longa com muito mais de cinquenta caracteres no total."
      "febre" []).2.2 (by decide)⟩

/-- Source tags for the three knowledge sources, in merge priority order. -/
inductive SourceType where
  | userNote
  | userDocument
  | officialDocument
deriving DecidableEq

/-- Merge priority of a source (0 = highest: personal notes). -/
def srcPriority : SourceType → ℕ
  | SourceType.userNote => 0
  | SourceType.userDocument => 1
  | SourceType.officialDocument => 2

/-- The source a context row came from. -/
def rowSource : CtxRow → SourceType
  | CtxRow.note _ => SourceType.userNote
  | CtxRow.doc _ => SourceType.userDocument
  | CtxRow.official _ => SourceType.officialDocument

/-- The `all_context` list of `ask_with_hybrid_rag` (lines 353–358 and
340–345): `results["user_notes"] + results["user_documents"] +
results["official_documents"]`, concatenated in that fixed order. -/
def all_context (notes : List NoteResult) (docs : List DocResult)
    (offs : List OfficialResult) : List CtxRow :=
  notes.map CtxRow.note ++ docs.map CtxRow.doc ++ offs.map CtxRow.official

/-- The context block rendered for a note (lines 190–194). -/
def note_context_part (n : NoteResult) : String :=
  "📝 **[SUA ANOTAÇÃO] " ++ n.title ++ "**\n" ++ n.content

/-- The context block rendered for a user document (lines 197–201). -/
def doc_context_part (d : DocResult) : String :=
  "📄 **[SEU DOCUMENTO] " ++ d.title ++ "**\n" ++ d.content

/-- The `source_label` mapping for official documents (lines 206–212). -/
def official_source_label (source : String) : String :=
  if source = "pcdt" then "PROTOCOLO OFICIAL MS"
  else if source = "sbc" then "DIRETRIZ SBC (Cardiologia)"
  else if source = "sboc" then "DIRETRIZ SBOC (Oncologia)"
  else if source = "amib" then "DIRETRIZ AMIB (UTI)"
  else if source = "sbp" then "DIRETRIZ SBP (Pediatria)"
  else "DOCUMENTO OFICIAL"

/-- The emoji chosen for an official document (line 205). -/
def official_emoji (source : String) : String :=
  if source = "pcdt" then "🏛️" else "🏥"

/-- The context block rendered for an official document (lines 214–216). -/
def official_context_part (o : OfficialResult) : String :=
  official_emoji o.source ++ " **[" ++ official_source_label o.source ++ "] "
    ++ o.title ++ "**\n" ++ o.content

/-- The `context_parts` list of `ask_with_hybrid_rag` (lines 186–217),
built source by source in priority order. -/
def context_parts (notes : List NoteResult) (docs : List DocResult)
    (offs : List OfficialResult) : List String :=
  notes.map note_context_part ++ docs.map doc_context_part
    ++ offs.map official_context_part

/-- The `sources` list of `ask_with_hybrid_rag` (lines 186–217). -/
def sources_list (notes : List NoteResult) (docs : List DocResult)
    (offs : List OfficialResult) : List String :=
  notes.map (fun n => "📝 Sua anotação: " ++ n.title)
    ++ docs.map (fun d => "📄 Seu documento: " ++ d.title)
    ++ offs.map (fun o =>
        official_emoji o.source ++ " " ++ official_source_label o.source
          ++ ": " ++ o.title)

/-- Outcome of the Gemini generation call (after the retry loop of lines
328–351): either the final response text or the exception message of the
last failed attempt. -/
inductive GenOutcome where
  | ok (text : String)
  | fail (err : String)

/-- The dict returned by `ask_with_hybrid_rag`; `quality_metrics` is absent
(`none`) on the no-context and generation-error returns. -/
structure RagAnswer where
  answer : String
  context_used : List CtxRow
  has_context : Bool
  sources : List String
  quality_metrics : Option QualityReport

/-- `HybridRAGService.ask_with_hybrid_rag` (lines 152–378) after the three
source searches returned `notes`, `docs` and `offs`: if `context_parts` is
empty the no-context dict is returned before any generation call;
otherwise the generation outcome determines the error dict (lines
339–351) or the success dict with quality metrics (lines 360–378). -/
def ask_with_hybrid_rag (question : String) (notes : List NoteResult)
    (docs : List DocResult) (offs : List OfficialResult) (gen : GenOutcome) :
    RagAnswer :=
  let parts := context_parts notes docs offs
  if parts.isEmpty then
    { answer := "Não encontrei informações relevantes nas suas anotações ou nos protocolos oficiais. Posso buscar na web se quiser! 🌐"
      context_used := []
      has_context := false
      sources := []
      quality_metrics := none }
  else
    match gen with
    | GenOutcome.fail e =>
        { answer := "Desculpe, ocorreu um erro ao processar sua pergunta: " ++ e
          context_used := all_context notes docs offs
          has_context := true
          sources := sources_list notes docs offs
          quality_metrics := none }
    | GenOutcome.ok t =>
        { answer := t
          context_used := all_context notes docs offs
          has_context := true
          sources := sources_list notes docs offs
          quality_metrics :=
            some (validate_response_quality t question (all_context notes docs offs)) }

/-- C9: when all three sources return zero results, `ask_with_hybrid_rag`
returns the well-defined "no context" value — an empty `context_used` list
together with `has_context = false` (and empty `sources`) — for every
generation outcome; the model is a total function, mirroring that the
source returns this dict before any generation call instead of raising. -/
theorem ask_with_hybrid_rag_no_context (question : String) (gen : GenOutcome) :
    (ask_with_hybrid_rag question [] [] [] gen).has_context = false
    ∧ (ask_with_hybrid_rag question [] [] [] gen).context_used = []
    ∧ (ask_with_hybrid_rag question [] [] [] gen).sources = [] :=
  ⟨rfl, rfl, rfl⟩

theorem rowSource_all_context_get (notes : List NoteResult) (docs : List DocResult)
    (offs : List OfficialResult) (k : ℕ)
    (hk : k < (all_context notes docs offs).length) :
    rowSource ((all_context notes docs offs).get ⟨k, hk⟩)
      = if k < notes.length then SourceType.userNote
        else if k < notes.length + docs.length then SourceType.userDocument
        else SourceType.officialDocument := by
  rw [List.get_eq_getElem]
  have hk' : k < (all_context notes docs offs).length := hk
  unfold all_context at hk' ⊢
  by_cases h1 : k < notes.length
  · rw [if_pos h1]
    have hA : k < (notes.map CtxRow.note).length := by simpa using h1
    have hAB : k < (notes.map CtxRow.note ++ docs.map CtxRow.doc).length := by
      simp only [List.length_append, List.length_map]
      omega
    rw [List.getElem_append_left hAB, List.getElem_append_left hA,
      List.getElem_map]
    rfl
  · rw [if_neg h1]
    by_cases h2 : k < notes.length + docs.length
    · rw [if_pos h2]
      have hAB : k < (notes.map CtxRow.note ++ docs.map CtxRow.doc).length := by
        simp only [List.length_append, List.length_map]
        omega
      have hA : (notes.map CtxRow.note).length ≤ k := by
        simp only [List.length_map]
        omega
      rw [List.getElem_append_left hAB, List.getElem_append_right hA,
        List.getElem_map]
      rfl
    · rw [if_neg h2]
      have hAB : (notes.map CtxRow.note ++ docs.map CtxRow.doc).length ≤ k := by
        simp only [List.length_append, List.length_map]
        omega
      rw [List.getElem_append_right hAB, List.getElem_map]
      rfl

/-- C1: the merged context never interleaves source types: whenever the
row at position `i` of `all_context` comes from a strictly
higher-priority source than the row at position `j` (priority order:
personal notes, then user documents, then reference corpus), `i` precedes
`j` — regardless of the similarity or relevance scores stored in the
rows. -/
theorem all_context_no_interleaving (notes : List NoteResult) (docs : List DocResult)
    (offs : List OfficialResult) (i j : ℕ)
    (hi : i < (all_context notes docs offs).length)
    (hj : j < (all_context notes docs offs).length)
    (hlt : srcPriority (rowSource ((all_context notes docs offs).get ⟨i, hi⟩))
      < srcPriority (rowSource ((all_context notes docs offs).get ⟨j, hj⟩))) :
    i < j := by
  rw [rowSource_all_context_get notes docs offs i hi,
    rowSource_all_context_get notes docs offs j hj] at hlt
  by_contra hij
  push_neg at hij
  split_ifs at hlt <;> simp [srcPriority] at hlt <;> omega

theorem all_context_no_interleaving_witness : (0:ℕ) < 1 :=
  all_context_no_interleaving [wNoteA] [] [wOffRes] 0 1 (by decide) (by decide)
    (by decide)
